import Mathlib

/-!
Verification of the prarabdha multi-tier LLM cache repository.

The repository ships packaging/publishing scripts (`fix_pypirc.py`,
`publish_with_env.py`) together with demo callers of the `prarabdha` cache
engine.  The engine itself is not part of the repository's source tree; the
specification records its architecture and contracts.  Accordingly:

* the publishing scripts are embedded directly from their Python source,
  with Python `str` operations modelled over `List Char`;
* the cache-engine components (fingerprint keyer, token-id trie, similarity
  index, eviction/TTL policy, cache manager façades) are modelled from the
  specification's component contracts, and the claimed properties are proved
  against those models.
-/

namespace PyStr

/-- Python strings are modelled as their character sequences. -/
abbrev Str := List Char

/-- Python `str.strip()` (no argument): drop leading and trailing whitespace. -/
def pyStrip (s : Str) : Str :=
  ((s.dropWhile Char.isWhitespace).reverse.dropWhile Char.isWhitespace).reverse

/-- Python `s.startswith(p)`. -/
def startswith (s p : Str) : Bool :=
  match s, p with
  | _, [] => true
  | [], _ :: _ => false
  | c :: cs, q :: qs => c = q && startswith cs qs

/-- Python `content.split(sep)` for a single-character separator: every
occurrence of `sep` separates fields, empty fields are kept. -/
def splitOnChar (sep : Char) (s : Str) : List Str :=
  match s with
  | [] => [[]]
  | c :: rest =>
    let r := splitOnChar sep rest
    if c = sep then [] :: r
    else (c :: r.headI) :: r.tail

/-- Python `s.replace(pat, repl)`: replace every (left-to-right,
non-overlapping) occurrence of `pat` in `s` by `repl`.  An empty pattern is
never used by the embedded code; it is treated as the identity. -/
def replaceAll (pat repl : Str) (s : Str) : Str :=
  match s with
  | [] => []
  | c :: rest =>
    if h : pat ≠ [] ∧ startswith (c :: rest) pat = true then
      repl ++ replaceAll pat repl (List.drop pat.length (c :: rest))
    else
      c :: replaceAll pat repl rest
termination_by s.length
decreasing_by
  · simp only [List.length_drop]
    have hp : 1 ≤ pat.length := by
      cases hpat : pat with
      | nil => exact absurd hpat h.1
      | cons a l => simp
    simp only [List.length_cons]
    omega
  · simp

end PyStr

open PyStr

namespace PublishWithEnv

/-!
Embedding of `load_env_file` from `src/publish_with_env.py`:

```python
for line in f:
    line = line.strip()
    if line and not line.startswith('#') and '=' in line:
        key, value = line.split('=', 1)
        os.environ[key] = value
```
-/

/-- Process environment: association list, most recent binding first. -/
abbrev Env := List (Str × Str)

/-- `os.environ[key] = value`: (re)bind `key` to `value`. -/
def envSet (env : Env) (k v : Str) : Env :=
  (k, v) :: env.filter (fun p => !(p.1 == k))

/-- Python `line.split('=', 1)`: split at the first `=` only, returning the
text before it and the entire remainder (later `=` characters preserved). -/
def splitFirstEq : Str → Str × Str
  | [] => ([], [])
  | c :: rest =>
    if c = '=' then ([], rest)
    else
      let p := splitFirstEq rest
      (c :: p.1, p.2)

/-- One iteration of the `for line in f` loop of `load_env_file`. -/
def loadEnvLine (env : Env) (raw : Str) : Env :=
  let line := pyStrip raw
  if line ≠ [] ∧ startswith line ['#'] = false ∧ '=' ∈ line then
    envSet env (splitFirstEq line).1 (splitFirstEq line).2
  else env

/-- `load_env_file` on a `.env` file that exists with content `content`. -/
def load_env_file (content : Str) (env : Env) : Env :=
  (splitOnChar '\n' content).foldl loadEnvLine env

theorem splitFirstEq_append (s : Str) (h : '=' ∈ s) :
    (splitFirstEq s).1 ++ '=' :: (splitFirstEq s).2 = s ∧
      '=' ∉ (splitFirstEq s).1 := by
  induction s with
  | nil => cases h
  | cons c rest ih =>
    by_cases hc : c = '='
    · subst hc
      simp [splitFirstEq]
    · have hmem : '=' ∈ rest := by
        cases h with
        | head => exact absurd rfl hc
        | tail _ h => exact h
      have ⟨h1, h2⟩ := ih hmem
      constructor
      · simpa [splitFirstEq, hc] using h1
      · simp only [splitFirstEq, if_neg hc]
        intro hmem'
        rcases List.mem_cons.mp hmem' with h | h
        · exact hc h.symm
        · exact h2 h

/-- C10: `load_env_file` splits each loaded line on the first `=` only.  A
line that is non-empty after stripping, does not start with `#`, and contains
`=` sets the environment variable named by the text before the first `=` to
the entire remainder of the stripped line — the key contains no `=` and
`key ++ '=' :: value` reassembles the stripped line, so every later `=` is
preserved in the value; every other line leaves the environment unchanged. -/
theorem load_env_line_spec (raw : Str) (env : Env) :
    (pyStrip raw ≠ [] ∧ startswith (pyStrip raw) ['#'] = false ∧
        '=' ∈ pyStrip raw →
      loadEnvLine env raw =
          envSet env (splitFirstEq (pyStrip raw)).1 (splitFirstEq (pyStrip raw)).2 ∧
        (splitFirstEq (pyStrip raw)).1 ++ '=' :: (splitFirstEq (pyStrip raw)).2 =
          pyStrip raw ∧
        '=' ∉ (splitFirstEq (pyStrip raw)).1) ∧
    (¬ (pyStrip raw ≠ [] ∧ startswith (pyStrip raw) ['#'] = false ∧
        '=' ∈ pyStrip raw) →
      loadEnvLine env raw = env) := by
  constructor
  · intro h
    refine ⟨?_, (splitFirstEq_append _ h.2.2).1, (splitFirstEq_append _ h.2.2).2⟩
    simp only [loadEnvLine, if_pos h]
  · intro h
    simp only [loadEnvLine, if_neg h]

/-- Witness for C10 at the concrete line `" A=b=c "` (value keeps the second
`=`) in the empty environment. -/
theorem load_env_line_spec_witness :
    loadEnvLine ([] : Env) (" A=b=c ".toList) =
        envSet [] (splitFirstEq (pyStrip (" A=b=c ".toList))).1
          (splitFirstEq (pyStrip (" A=b=c ".toList))).2 ∧
      (splitFirstEq (pyStrip (" A=b=c ".toList))).1 ++ '=' ::
          (splitFirstEq (pyStrip (" A=b=c ".toList))).2 =
        pyStrip (" A=b=c ".toList) ∧
      '=' ∉ (splitFirstEq (pyStrip (" A=b=c ".toList))).1 :=
  (load_env_line_spec (" A=b=c ".toList) []).1 (by decide)

end PublishWithEnv

namespace FixPypirc

/-!
Embedding of `fix_pypirc` from `src/fix_pypirc.py`.  File contents are
modelled as their list of lines (the Python code reads the file as a string
and immediately splits on `'\n'`; the corrected content it writes is shown
here as the same split).  `none` models a missing `.pypirc` file.
-/

/-- The marker the token-extraction loop looks for. -/
def pwMark : Str := "password = ".toList

/-- The token-extraction loop: the first line starting with `"password = "`
yields `line.replace("password = ", "").strip()`; `none` if no line matches
(Python leaves `token = None`). -/
def extractToken (lines : List Str) : Option Str :=
  lines.findSome? (fun line =>
    if startswith line pwMark then some (pyStrip (replaceAll pwMark [] line))
    else none)

/-- The corrected `.pypirc` content written on success, split into lines
(the f-string template of `fix_pypirc`, with `{token}` substituted twice). -/
def correctedLines (token : Str) : List Str :=
  [ "[distutils]".toList,
    "index-servers =".toList,
    "    pypi".toList,
    "    testpypi".toList,
    [],
    "[pypi]".toList,
    "repository = https://pypi.org/pypi".toList,
    "username = __token__".toList,
    pwMark ++ token,
    [],
    "[testpypi]".toList,
    "repository = https://test.pypi.org/legacy/".toList,
    "username = __token__".toList,
    pwMark ++ token,
    [] ]

/-- `fix_pypirc`: argument is the current `.pypirc` content (`none` when the
file does not exist); result is the returned boolean and the resulting file
content.  Python's `if not token` is false for both `None` and `""`. -/
def fix_pypirc : Option (List Str) → Bool × Option (List Str)
  | none => (false, none)
  | some lines =>
    match extractToken lines with
    | none => (false, some lines)
    | some token =>
      if token = [] then (false, some lines)
      else (true, some (correctedLines token))

/-- Membership test for a section of an INI file given as lines: the lines
strictly between the header line and the next line opening with `[`. -/
def iniSection (lines : List Str) (header : Str) : List Str :=
  (((lines.dropWhile (fun l => !(l == header))).drop 1).takeWhile
    (fun l => !(l.head? == some '[')))

theorem extractToken_eq_none (lines : List Str)
    (h : ∀ l ∈ lines, startswith l pwMark = false) :
    extractToken lines = none := by
  induction lines with
  | nil => rfl
  | cons l rest ih =>
    have hl := h l (List.mem_cons_self l rest)
    have hr := ih (fun x hx => h x (List.mem_cons_of_mem l hx))
    simpa [extractToken, List.findSome?, hl] using hr

theorem iniSection_corrected_pypi (t : Str) :
    iniSection (correctedLines t) ("[pypi]".toList) =
      [ "repository = https://pypi.org/pypi".toList,
        "username = __token__".toList,
        pwMark ++ t,
        [] ] := rfl

theorem iniSection_corrected_testpypi (t : Str) :
    iniSection (correctedLines t) ("[testpypi]".toList) =
      [ "repository = https://test.pypi.org/legacy/".toList,
        "username = __token__".toList,
        pwMark ++ t,
        [] ] := rfl

/-- C9: `fix_pypirc` is atomic on error — if the existing `.pypirc` content
has no line starting with `"password = "`, it returns `False` and leaves the
content unchanged; and whenever it returns `True`, the rewritten file gives
both the `[pypi]` and `[testpypi]` sections username `__token__` and the
identical password, namely the first token extracted from the original
content. -/
theorem fix_pypirc_spec (lines : List Str) :
    ((∀ l ∈ lines, startswith l pwMark = false) →
      fix_pypirc (some lines) = (false, some lines)) ∧
    (∀ out, fix_pypirc (some lines) = (true, out) →
      ∃ t, extractToken lines = some t ∧ t ≠ [] ∧
        out = some (correctedLines t) ∧
        "username = __token__".toList ∈
          iniSection (correctedLines t) ("[pypi]".toList) ∧
        pwMark ++ t ∈ iniSection (correctedLines t) ("[pypi]".toList) ∧
        "username = __token__".toList ∈
          iniSection (correctedLines t) ("[testpypi]".toList) ∧
        pwMark ++ t ∈ iniSection (correctedLines t) ("[testpypi]".toList)) := by
  constructor
  · intro h
    simp [fix_pypirc, extractToken_eq_none lines h]
  · intro out hout
    simp only [fix_pypirc] at hout
    cases hex : extractToken lines with
    | none =>
      rw [hex] at hout
      dsimp only at hout
      exact absurd (congrArg Prod.fst hout) (by simp)
    | some token =>
      rw [hex] at hout
      dsimp only at hout
      by_cases ht : token = []
      · rw [if_pos ht] at hout
        exact absurd (congrArg Prod.fst hout) (by simp)
      · rw [if_neg ht] at hout
        have hout2 := congrArg Prod.snd hout
        simp only at hout2
        refine ⟨token, rfl, ht, hout2.symm, ?_, ?_, ?_, ?_⟩
        · rw [iniSection_corrected_pypi]; simp
        · rw [iniSection_corrected_pypi]; simp
        · rw [iniSection_corrected_testpypi]; simp
        · rw [iniSection_corrected_testpypi]; simp

/-- Witness for C9: a `.pypirc` with no `password = ` line is returned
unchanged with result `False`. -/
theorem fix_pypirc_spec_witness :
    fix_pypirc (some ["[pypi]".toList, "username = u".toList]) =
      (false, some ["[pypi]".toList, "username = u".toList]) :=
  (fix_pypirc_spec ["[pypi]".toList, "username = u".toList]).1 (by decide)

end FixPypirc

namespace PrefixMatcher

/-- Modelled from the spec: the Prefix Matcher's trie (`PrefixIndexNode`),
absent from the repository's source tree.  A node is one token-id transition
and holds an optional attached KV-cache entry; children are keyed by token
id. -/
inductive Trie (α : Type) : Type where
  | node : Option α → List (Nat × Trie α) → Trie α

/-- The empty trie: root with no attached entry and no children. -/
def Trie.empty {α : Type} : Trie α := .node none []

/-- Look up the child for token `q`. -/
def findChild {α : Type} : List (Nat × Trie α) → Nat → Option (Trie α)
  | [], _ => none
  | (t, sub) :: rest, q => if t = q then some sub else findChild rest q

/-- Replace (or add) the child for token `q`. -/
def setChild {α : Type} : List (Nat × Trie α) → Nat → Trie α → List (Nat × Trie α)
  | [], q, s => [(q, s)]
  | (t, sub) :: rest, q, s =>
    if t = q then (q, s) :: rest else (t, sub) :: setChild rest q s

/-- Modelled from the spec: `insert(tokens, entry)` walks/extends the path
and attaches the entry at the terminal node; on re-insertion the most
recently inserted entry wins. -/
def Trie.insert {α : Type} : Trie α → List Nat → α → Trie α
  | .node _ ch, [], e => .node (some e) ch
  | .node v ch, t :: ts, e =>
    match findChild ch t with
    | some sub => .node v (setChild ch t (sub.insert ts e))
    | none => .node v (setChild ch t (Trie.insert .empty ts e))

/-- The lookup walk: follows query tokens as far as nodes exist, remembering
the deepest attached entry seen (`best` is `(depth, entry)`). -/
def Trie.walk {α : Type} : Trie α → List Nat → Nat → Nat × Option α → Nat × Option α
  | .node v ch, ts, depth, best =>
    let best' := match v with
      | some e => (depth, some e)
      | none => best
    match ts with
    | [] => best'
    | t :: ts' =>
      match findChild ch t with
      | some sub => sub.walk ts' (depth + 1) best'
      | none => best'

/-- Modelled from the spec: `longest_prefix_match(tokens)` returns
`(matched_length, entry_or_none)` — the deepest attached entry along the
query path and the count of tokens it covers; an empty token sequence never
matches. -/
def Trie.longest_prefix_match {α : Type} (tr : Trie α) (ts : List Nat) :
    Nat × Option α :=
  match ts with
  | [] => (0, none)
  | _ :: _ => tr.walk ts 0 (0, none)

theorem Trie.walk_insert_empty {α : Type} (T S : List Nat) (e : α) (d : Nat)
    (b : Nat × Option α) :
    Trie.walk (Trie.insert .empty T e) (T ++ S) d b = (d + T.length, some e) := by
  induction T generalizing d b with
  | nil =>
    cases S with
    | nil => simp [Trie.insert, Trie.empty, Trie.walk]
    | cons s S' => simp [Trie.insert, Trie.empty, Trie.walk, findChild]
  | cons t T' ih =>
    have hins : Trie.insert (.empty : Trie α) (t :: T') e =
        .node none [(t, Trie.insert .empty T' e)] := rfl
    rw [hins]
    show Trie.walk _ (t :: (T' ++ S)) d b = _
    simp only [Trie.walk, findChild, if_pos]
    rw [ih]
    simp only [List.length_cons, Prod.mk.injEq, and_true]
    omega

/-- C2: after inserting an entry for token sequence `T`, a query for `T ++ S`
returns a match of length exactly `T.length` together with that entry: the
lookup walks the query tokens as far as trie nodes exist and returns the
deepest attached entry with the count of tokens it covers.  In particular,
inserting `[1,2,3,4]` and querying `[1,2,3,4,5]` yields a match of length 4. -/
theorem longest_prefix_match_insert {α : Type} (T S : List Nat) (e : α)
    (h : T ≠ []) :
    (Trie.insert .empty T e).longest_prefix_match (T ++ S) =
      (T.length, some e) := by
  cases T with
  | nil => exact absurd rfl h
  | cons t T' =>
    simp only [Trie.longest_prefix_match, List.cons_append]
    simpa using Trie.walk_insert_empty (t :: T') S e 0 (0, none)

/-- Witness for C2: the spec's scenario — a KV entry cached for tokens
`[1,2,3,4]`, then querying `[1,2,3,4,5]` matches length 4 with that entry. -/
theorem longest_prefix_match_insert_witness :
    (Trie.insert .empty [1, 2, 3, 4] (0 : Nat)).longest_prefix_match
      [1, 2, 3, 4, 5] = (4, some 0) := by
  simpa using longest_prefix_match_insert [1, 2, 3, 4] [5] (0 : Nat) (by decide)

/-- The update of the running best match at a node: an attached entry at
depth `d` supersedes the best seen so far. -/
def upd {α : Type} (v : Option α) (d : Nat) (b : Nat × Option α) :
    Nat × Option α :=
  match v with
  | some e => (d, some e)
  | none => b

theorem Trie.walk_nil {α : Type} (v : Option α) (ch : List (Nat × Trie α))
    (d : Nat) (b : Nat × Option α) :
    Trie.walk (.node v ch) [] d b = upd v d b := rfl

theorem Trie.walk_cons_none {α : Type} {v : Option α}
    {ch : List (Nat × Trie α)} {t : Nat} (ts : List Nat) (d : Nat)
    (b : Nat × Option α) (hfc : findChild ch t = none) :
    Trie.walk (.node v ch) (t :: ts) d b = upd v d b := by
  cases v <;> simp [Trie.walk, hfc, upd]

theorem Trie.walk_cons_some {α : Type} {v : Option α}
    {ch : List (Nat × Trie α)} {t : Nat} {sub : Trie α} (ts : List Nat)
    (d : Nat) (b : Nat × Option α) (hfc : findChild ch t = some sub) :
    Trie.walk (.node v ch) (t :: ts) d b = sub.walk ts (d + 1) (upd v d b) := by
  cases v <;> simp [Trie.walk, hfc, upd]

/-- The walk either stops with the value it would report on an empty query
(no deeper attached entry was found) or reports an attached entry strictly
below the current depth. -/
theorem Trie.walk_stops_or_deepens {α : Type} (ts : List Nat) (tr : Trie α)
    (d : Nat) (b : Nat × Option α) :
    tr.walk ts d b = tr.walk [] d b ∨
      (d < (tr.walk ts d b).1 ∧ (tr.walk ts d b).2.isSome = true) := by
  induction ts generalizing tr d b with
  | nil => exact Or.inl rfl
  | cons t ts' ih =>
    obtain ⟨v, ch⟩ := tr
    cases hfc : findChild ch t with
    | none => rw [Trie.walk_cons_none ts' d b hfc, Trie.walk_nil]; exact Or.inl rfl
    | some sub =>
      rw [Trie.walk_cons_some ts' d b hfc]
      rcases ih sub (d + 1) (upd v d b) with h | h
      · rw [h]
        obtain ⟨v2, ch2⟩ := sub
        rw [Trie.walk_nil]
        cases v2 with
        | none => rw [Trie.walk_nil]; exact Or.inl rfl
        | some e2 => exact Or.inr (by simp [upd])
      · exact Or.inr ⟨by omega, h.2⟩

/-- Truncating the query after the reported match depth does not change the
walk's result. -/
theorem Trie.walk_take {α : Type} (ts : List Nat) (tr : Trie α) (m d : Nat)
    (b : Nat × Option α) (hm : 1 ≤ m)
    (hle : (tr.walk ts d b).1 ≤ d + m) :
    tr.walk (ts.take m) d b = tr.walk ts d b := by
  induction ts generalizing tr m d b with
  | nil => simp
  | cons t ts' ih =>
    obtain ⟨v, ch⟩ := tr
    obtain ⟨m', rfl⟩ : ∃ m', m = m' + 1 := ⟨m - 1, by omega⟩
    rw [List.take_succ_cons]
    cases hfc : findChild ch t with
    | none =>
      rw [Trie.walk_cons_none _ d b hfc, Trie.walk_cons_none _ d b hfc]
    | some sub =>
      rw [Trie.walk_cons_some _ d b hfc]
      rw [Trie.walk_cons_some ts' d b hfc] at hle ⊢
      by_cases hm' : 1 ≤ m'
      · exact ih sub m' (d + 1) (upd v d b) hm' (by omega)
      · have hz : m' = 0 := by omega
        subst hz
        rcases Trie.walk_stops_or_deepens ts' sub (d + 1) (upd v d b) with h | h
        · simpa using h.symm
        · omega

/-- C6 (amended): if `longest_prefix_match` on tokens `T` reports `(n, E)`,
then for every `m` with `1 ≤ m` and `n ≤ m`, the truncated query `T.take m`
reports the same match `(n, E)`.  (For `m < n` the claim as stated fails:
entries attach only at insertion terminals, so a shorter query can find no
attached entry at all — see the counterexample.) -/
theorem longest_prefix_match_take {α : Type} (tr : Trie α) (T : List Nat)
    (n m : Nat) (E : α)
    (h : tr.longest_prefix_match T = (n, some E))
    (hm : 1 ≤ m) (hnm : n ≤ m) :
    tr.longest_prefix_match (T.take m) = (n, some E) := by
  cases T with
  | nil => simp [Trie.longest_prefix_match] at h
  | cons t T' =>
    have hw : tr.walk (t :: T') 0 (0, none) = (n, some E) := h
    obtain ⟨m', rfl⟩ : ∃ m', m = m' + 1 := ⟨m - 1, by omega⟩
    have h2 : tr.walk ((t :: T').take (m' + 1)) 0 (0, none) = (n, some E) := by
      rw [Trie.walk_take (t :: T') tr (m' + 1) 0 (0, none) (by omega)
        (by rw [hw]; simpa using hnm), hw]
    rw [List.take_succ_cons] at h2
    simpa [Trie.longest_prefix_match] using h2

/-- Witness for the amended C6: with the entry attached at `[1,2,3,4]` and
query `[1,2,3,4,5]` matching `(4, entry)`, truncating to the first 4 tokens
still matches `(4, entry)`. -/
theorem longest_prefix_match_take_witness :
    (Trie.insert .empty [1, 2, 3, 4] (0 : Nat)).longest_prefix_match
      (List.take 4 [1, 2, 3, 4, 5]) = (4, some 0) :=
  longest_prefix_match_take (Trie.insert .empty [1, 2, 3, 4] (0 : Nat))
    [1, 2, 3, 4, 5] 4 4 0 (by decide) (by decide) (by decide)

/-- C6 counterexample: the claim as stated is false.  With the single entry
attached at `[1,2,3,4]`, the full query matches `(4, entry)`, but its
truncation to `m = 2 ≤ 4` tokens walks existing nodes that carry no attached
entry, so it reports `(0, none)` — depth `0 < m` and no entry at all. -/
theorem prefix_monotonicity_counterexample :
    ¬ (∀ (tr : Trie Nat) (T : List Nat) (n E m : Nat),
        tr.longest_prefix_match T = (n, some E) → m ≤ n →
        m ≤ (tr.longest_prefix_match (T.take m)).1 ∧
          (tr.longest_prefix_match (T.take m)).2.isSome = true) := by
  intro hcl
  have h2 := hcl (Trie.insert .empty [1, 2, 3, 4] 0) [1, 2, 3, 4] 4 0 2
    (by decide) (by decide)
  revert h2
  decide

end PrefixMatcher

namespace EvictionTTL

/-- Modelled from the spec: configured defaults of the TTL predictor, absent
from the repository's source tree — a baseline TTL and the nonnegative
scaling weights for priority and access frequency. -/
structure TTLConfig where
  baseTTL : ℚ
  priorityWeight : ℚ
  frequencyWeight : ℚ

/-- Modelled from the spec: `predict_ttl(entry) -> duration` — a baseline
from configured defaults, scaled upward by `priority` (higher priority →
longer TTL) and by recent access frequency (hot entries live longer);
deterministic given the same inputs. -/
def predict_ttl (cfg : TTLConfig) (priority : Nat) (accessFreq : Nat) : ℚ :=
  cfg.baseTTL * (1 + cfg.priorityWeight * priority)
    * (1 + cfg.frequencyWeight * accessFreq)

/-- C5: for a fixed access history, `predict_ttl` is non-decreasing in the
entry's priority (given a nonnegative baseline and weights), and it is a
deterministic function of its inputs: identical inputs give identical
durations. -/
theorem predict_ttl_monotone (cfg : TTLConfig)
    (hb : 0 ≤ cfg.baseTTL) (hp : 0 ≤ cfg.priorityWeight)
    (hf : 0 ≤ cfg.frequencyWeight) (p₁ p₂ freq : Nat) (hpr : p₁ ≤ p₂) :
    predict_ttl cfg p₁ freq ≤ predict_ttl cfg p₂ freq ∧
      (∀ p f p' f', p = p' → f = f' →
        predict_ttl cfg p f = predict_ttl cfg p' f') := by
  constructor
  · unfold predict_ttl
    have hcast : (p₁ : ℚ) ≤ (p₂ : ℚ) := by exact_mod_cast hpr
    have hfac : (0 : ℚ) ≤ 1 + cfg.frequencyWeight * freq := by positivity
    have hbase : cfg.baseTTL * (1 + cfg.priorityWeight * p₁)
        ≤ cfg.baseTTL * (1 + cfg.priorityWeight * p₂) := by
      apply mul_le_mul_of_nonneg_left _ hb
      have := mul_le_mul_of_nonneg_left hcast hp
      linarith
    exact mul_le_mul_of_nonneg_right hbase hfac
  · intro p f p' f' hpp hff
    rw [hpp, hff]

/-- Witness for C5: with baseline 3600 s, priority weight 1/2, frequency
weight 1/4, fixed access frequency 2, priorities 1 ≤ 5 give non-decreasing
TTLs. -/
theorem predict_ttl_monotone_witness :
    predict_ttl ⟨3600, 1/2, 1/4⟩ 1 2 ≤ predict_ttl ⟨3600, 1/2, 1/4⟩ 5 2 ∧
      (∀ p f p' f', p = p' → f = f' →
        predict_ttl ⟨3600, 1/2, 1/4⟩ p f = predict_ttl ⟨3600, 1/2, 1/4⟩ p' f') :=
  predict_ttl_monotone ⟨3600, 1/2, 1/4⟩ (by norm_num) (by norm_num)
    (by norm_num) 1 5 2 (by norm_num)

end EvictionTTL

namespace SimilarityIndex

/-- Modelled from the spec: `SimilarityRecord (vector_id, embedding,
metadata)`; the Similarity Index itself is absent from the repository's
source tree.  The index is the list of records, most recently inserted
first. -/
structure SimilarityRecord where
  vector_id : Nat
  embedding : List ℚ
  metadata : Nat

/-- `insert(vector_id, embedding, metadata)`: most recent first. -/
def insertRecord (idx : List SimilarityRecord) (r : SimilarityRecord) :
    List SimilarityRecord := r :: idx

/-- A search result `(vector_id, similarity, metadata)`. -/
abbrev SearchResult := Nat × ℚ × Nat

/-- Descending-by-similarity ordering on search results (non-strict). -/
def simOrder (a b : SearchResult) : Prop := b.2.1 ≤ a.2.1

instance : DecidableRel simOrder :=
  fun a b => inferInstanceAs (Decidable (b.2.1 ≤ a.2.1))

instance : IsTotal SearchResult simOrder := ⟨fun a b => le_total b.2.1 a.2.1⟩

instance : IsTrans SearchResult simOrder := ⟨fun _ _ _ h1 h2 => le_trans h2 h1⟩

/-- Modelled from the spec: `search(query_embedding, k)` — score every
record with the index's similarity metric `sim`, keep only results with
similarity at or above the configured threshold, order them descending by
similarity (ties: most recently inserted first, via a stable sort of the
recency-ordered record list), and return at most `k`. -/
def search (sim : List ℚ → List ℚ → ℚ) (idx : List SimilarityRecord)
    (q : List ℚ) (k : Nat) (threshold : ℚ) : List SearchResult :=
  (List.insertionSort simOrder
      ((idx.map fun r => (r.vector_id, sim q r.embedding, r.metadata)).filter
        fun x => decide (threshold ≤ x.2.1))).take k

/-- C3 (amended): for every similarity metric, index, query embedding and
`k`, the result of `search` has length at most `k`, contains no result with
similarity below the configured threshold, and is ordered descending by
similarity — non-strictly: results of equal similarity may both appear (the
claimed strictness fails, see the counterexample). -/
theorem search_spec (sim : List ℚ → List ℚ → ℚ) (idx : List SimilarityRecord)
    (q : List ℚ) (k : Nat) (threshold : ℚ) :
    (search sim idx q k threshold).length ≤ k ∧
      (∀ r ∈ search sim idx q k threshold, threshold ≤ r.2.1) ∧
      List.Sorted simOrder (search sim idx q k threshold) := by
  refine ⟨List.length_take_le _ _, ?_, ?_⟩
  · intro r hr
    have h1 : r ∈ List.insertionSort simOrder
        ((idx.map fun r => (r.vector_id, sim q r.embedding, r.metadata)).filter
          fun x => decide (threshold ≤ x.2.1)) :=
      (List.take_sublist _ _).mem hr
    have h2 := (List.mem_insertionSort simOrder).mp h1
    exact of_decide_eq_true (List.mem_filter.mp h2).2
  · exact List.Pairwise.sublist (List.take_sublist _ _)
      (List.sorted_insertionSort simOrder _)

/-- Dot-product similarity, used to exhibit the tie in the counterexample. -/
def dotSim (a b : List ℚ) : ℚ := (List.zipWith (fun x y => x * y) a b).sum

/-- C3 counterexample: strict descending order fails.  Two records with
identical embeddings both score similarity 1 for the query `[1]`, both pass
threshold 0, and both are returned — the returned sequence is not strictly
descending in similarity. -/
theorem search_strict_order_counterexample :
    ¬ List.Chain' (fun a b : SearchResult => b.2.1 < a.2.1)
        (search dotSim [⟨1, [1], 0⟩, ⟨2, [1], 0⟩] [1] 2 0) := by
  have hs : search dotSim [⟨1, [1], 0⟩, ⟨2, [1], 0⟩] [1] 2 0 =
      [(1, 1, 0), (2, 1, 0)] := by
    norm_num [search, dotSim, List.insertionSort, List.orderedInsert, simOrder]
  rw [hs]
  norm_num [List.chain'_cons]

end SimilarityIndex

namespace FingerprintKeyer

/-- Modelled from the spec: the cache's modality tags. -/
inductive Modality where
  | text
  | audio
  | video
  | documentChunk
  | kvCache
deriving DecidableEq

/-- Numeric tag used when canonicalizing the modality. -/
def modalityTag : Modality → Nat
  | .text => 1
  | .audio => 2
  | .video => 3
  | .documentChunk => 4
  | .kvCache => 5

/-- Modelled from the spec: distinguishing context fields (user, session,
model) included in the fingerprint for cache scoping. -/
structure KeyContext where
  userId : Str
  sessionId : Str
  model : Str

/-- Canonicalized byte sequence of input, modality tag, and context fields,
with separators so distinct field splits canonicalize differently. -/
def canonicalBytes (input : Str) (m : Modality) (ctx : KeyContext) :
    List Nat :=
  (input.map Char.toNat) ++ [0, modalityTag m, 0] ++
    (ctx.userId.map Char.toNat) ++ [0] ++
    (ctx.sessionId.map Char.toNat) ++ [0] ++ (ctx.model.map Char.toNat)

/-- Fixed-width (64-bit FNV-style) hash over the canonicalized bytes. -/
def polyHash (bs : List Nat) : Nat :=
  bs.foldl (fun h b => (h * 1099511628211 + b) % 2 ^ 64)
    (14695981039346656037 % 2 ^ 64)

/-- Modelled from the spec: `key(input, modality, context) -> Key` — a
deterministic content-addressable key over the canonicalized input and
context fields; a pure function. -/
def key (input : Str) (m : Modality) (ctx : KeyContext) : Nat :=
  polyHash (canonicalBytes input m ctx)

/-- A call to the keyer with the observable program state threaded through,
so that freedom from side effects is statable: the call returns the key and
the state it was given. -/
def keyCall (σ : Type) (input : Str) (m : Modality) (ctx : KeyContext)
    (st : σ) : Nat × σ :=
  (key input m ctx, st)

/-- C8: the Fingerprint Keyer is pure and deterministic — two calls with the
same logical input, modality and context fields return the same key (whatever
observable state each call runs in), and no call changes the observable
state. -/
theorem key_pure (σ : Type) (i₁ i₂ : Str) (m₁ m₂ : Modality)
    (c₁ c₂ : KeyContext) (st₁ st₂ : σ)
    (hi : i₁ = i₂) (hm : m₁ = m₂) (hc : c₁ = c₂) :
    (keyCall σ i₁ m₁ c₁ st₁).1 = (keyCall σ i₂ m₂ c₂ st₂).1 ∧
      (keyCall σ i₁ m₁ c₁ st₁).2 = st₁ := by
  subst hi hm hc
  exact ⟨rfl, rfl⟩

/-- Witness for C8 at a concrete input, context and state. -/
theorem key_pure_witness :
    (keyCall Nat ("hello".toList) .text ⟨"u1".toList, "s1".toList,
        "gpt-4".toList⟩ 7).1 =
      (keyCall Nat ("hello".toList) .text ⟨"u1".toList, "s1".toList,
        "gpt-4".toList⟩ 99).1 ∧
      (keyCall Nat ("hello".toList) .text ⟨"u1".toList, "s1".toList,
        "gpt-4".toList⟩ 7).2 = 7 :=
  key_pure Nat ("hello".toList) ("hello".toList) .text .text
    ⟨"u1".toList, "s1".toList, "gpt-4".toList⟩
    ⟨"u1".toList, "s1".toList, "gpt-4".toList⟩ 7 99 rfl rfl rfl

end FingerprintKeyer

namespace CacheManager

/-- Error taxonomy surfaced to callers (spec §7): only malformed input is an
error; misses are values. -/
inductive CacheError where
  | invalidInput
deriving DecidableEq

/-- Hit source reported by `get` for observability (spec §4.6). -/
inductive Source where
  | exact
  | prefixReuse
  | similarity
deriving DecidableEq

/-- Key ↦ value lookup in a tier's association list (freshest write first). -/
def lookupKey {V : Type} : List (Str × V) → Str → Option V
  | [], _ => none
  | (k', v) :: rest, k => if k' = k then some v else lookupKey rest k

/-- Modelled from the spec: the Cache Manager's state, absent from the
repository's source tree — the fast tier (key ↦ entry, freshest first), the
Prefix Matcher trie holding entries for tokenized requests, and the
Similarity Index records `(vector_id, embedding, entry)` for embedded
requests. -/
structure ManagerState (V : Type) where
  fast : List (Str × V)
  trie : PrefixMatcher.Trie V
  index : List (Nat × List ℚ × V)

/-- The empty manager state. -/
def ManagerState.empty {V : Type} : ManagerState V := ⟨[], .empty, []⟩

/-- A `get` request: exact key, optional token sequence, optional embedding. -/
structure Request where
  key : Str
  tokens : Option (List Nat)
  embedding : Option (List ℚ)

/-- Modelled from the spec: `put(request, value)` — reject an empty key
(malformed input), write the fast tier (freshest first), register the entry
in the Prefix Matcher when tokenized and in the Similarity Index when
embedded. -/
def put {V : Type} (s : ManagerState V) (k : Str) (v : V)
    (tokens : Option (List Nat)) (emb : Option (List ℚ)) :
    Except CacheError (ManagerState V) :=
  if k = [] then .error .invalidInput
  else .ok
    { fast := (k, v) :: s.fast
      trie := match tokens with
        | some ts => s.trie.insert ts v
        | none => s.trie
      index := match emb with
        | some e => (s.index.length, e, v) :: s.index
        | none => s.index }

/-- The similarity-fallback stage of `get`: best above-threshold record. -/
def simFallback {V : Type} (sim : List ℚ → List ℚ → ℚ) (θ : ℚ) (q : List ℚ)
    (index : List (Nat × List ℚ × V)) : Option V :=
  ((List.insertionSort (fun a b : ℚ × V => b.1 ≤ a.1)
      ((index.map fun rec => (sim q rec.2.1, rec.2.2)).filter
        fun x => decide (θ ≤ x.1))).head?).map (fun x => x.2)

/-- Modelled from the spec: `get(request)` — exact-key lookup in the tier
store first, then longest-prefix match for tokenized requests, then
similarity search at/above threshold as last resort; reports the hit
source. -/
def get {V : Type} (sim : List ℚ → List ℚ → ℚ) (θ : ℚ) (s : ManagerState V)
    (r : Request) : Option (V × Source) :=
  match lookupKey s.fast r.key with
  | some v => some (v, .exact)
  | none =>
    match r.tokens.bind (fun ts => (s.trie.longest_prefix_match ts).2) with
    | some e => some (e, .prefixReuse)
    | none =>
      match r.embedding with
      | some q => (simFallback sim θ q s.index).map (fun v => (v, .similarity))
      | none => none

/-- C1: for every valid entry (nonempty key), `put(k, v)` followed by
`get(k)` — no eviction occurring in between (the model's `put` never
evicts) — returns exactly `v`, and the reported hit source is `exact`,
whatever tokens or embedding the request carries. -/
theorem put_get_round_trip {V : Type} (sim : List ℚ → List ℚ → ℚ) (θ : ℚ)
    (s : ManagerState V) (k : Str) (v : V) (tokens : Option (List Nat))
    (emb : Option (List ℚ)) (hk : k ≠ []) :
    ∃ s', put s k v tokens emb = .ok s' ∧
      ∀ rtokens rembedding,
        get sim θ s' ⟨k, rtokens, rembedding⟩ = some (v, .exact) := by
  refine ⟨_, by rw [put.eq_def, if_neg hk], ?_⟩
  intro rtokens rembedding
  simp [get, lookupKey]

/-- Witness for C1: putting key `"a"` ↦ `42` into the empty manager and
reading it back hits exactly. -/
theorem put_get_round_trip_witness :
    ∃ s', put (ManagerState.empty : ManagerState Nat) ("a".toList) 42
        none none = .ok s' ∧
      get SimilarityIndex.dotSim 0 s' ⟨"a".toList, none, none⟩ =
        some (42, .exact) := by
  obtain ⟨s', h1, h2⟩ := put_get_round_trip SimilarityIndex.dotSim 0
    (ManagerState.empty : ManagerState Nat) ("a".toList) 42 none none
    (by decide)
  exact ⟨s', h1, h2 none none⟩

end CacheManager

namespace TierEviction

/-- Modelled from the spec: a tier-resident entry as the eviction policy
sees it — key, byte size, last-access time, access count, remaining TTL. -/
structure Entry where
  key : Nat
  size : Nat
  lastAccess : Nat
  accessCount : Nat
  remTTL : Nat
deriving DecidableEq

/-- Modelled from the spec: eviction-policy configuration — the hybrid-score
weights `w1`, `w2` and the minimum TTL floor below which an entry counts as
expired. -/
structure PolicyConfig where
  w1 : Nat
  w2 : Nat
  minTTL : Nat

/-- An entry below the minimum TTL floor is expired. -/
def expired (cfg : PolicyConfig) (e : Entry) : Bool :=
  decide (e.remTTL < cfg.minTTL)

/-- Recency rank within the tier: how many entries were accessed strictly
earlier (least recently used ⇒ rank 0). -/
def recencyRank (tier : List Entry) (e : Entry) : Nat :=
  (tier.filter fun x => decide (x.lastAccess < e.lastAccess)).length

/-- Frequency rank within the tier: how many entries have strictly fewer
accesses (least frequently used ⇒ rank 0). -/
def frequencyRank (tier : List Entry) (e : Entry) : Nat :=
  (tier.filter fun x => decide (x.accessCount < e.accessCount)).length

/-- Modelled from the spec: the hybrid eviction score
`w1 * recency_rank + w2 * frequency_rank`; lowest score evicted first. -/
def score (cfg : PolicyConfig) (tier : List Entry) (e : Entry) : Nat :=
  cfg.w1 * recencyRank tier e + cfg.w2 * frequencyRank tier e

/-- Eviction precedence: expired entries come before all live entries
regardless of score; within the same class, lower score first. -/
def evictBefore (cfg : PolicyConfig) (tier : List Entry) (a b : Entry) :
    Prop :=
  (if expired cfg a then 0 else 1) < (if expired cfg b then 0 else 1) ∨
    ((if expired cfg a then 0 else 1) = (if expired cfg b then 0 else 1) ∧
      score cfg tier a ≤ score cfg tier b)

instance (cfg : PolicyConfig) (tier : List Entry) :
    DecidableRel (evictBefore cfg tier) := fun a b => by
  unfold evictBefore
  infer_instance

instance (cfg : PolicyConfig) (tier : List Entry) :
    IsTotal Entry (evictBefore cfg tier) := by
  constructor
  intro a b
  unfold evictBefore
  omega

instance (cfg : PolicyConfig) (tier : List Entry) :
    IsTrans Entry (evictBefore cfg tier) := by
  constructor
  intro a b c hab hbc
  unfold evictBefore at hab hbc ⊢
  omega

/-- The tier's eviction candidates in eviction order: expired first, then
ascending hybrid score (a stable sort of the tier). -/
def sortedCandidates (cfg : PolicyConfig) (tier : List Entry) : List Entry :=
  List.insertionSort (evictBefore cfg tier) tier

/-- Take candidates in order until `need` bytes are freed (or candidates run
out). -/
def takeUntilFreed (need : Nat) : List Entry → List Entry
  | [] => []
  | e :: es => if need = 0 then [] else e :: takeUntilFreed (need - e.size) es

/-- Occupancy of a tier: total bytes of its entries. -/
def occupancy (tier : List Entry) : Nat := (tier.map Entry.size).sum

/-- Modelled from the spec: `select_victims(tier, bytes_needed)` — evict the
candidates in eviction order until the needed bytes are freed. -/
def select_victims (cfg : PolicyConfig) (tier : List Entry)
    (bytesNeeded : Nat) : List Entry :=
  takeUntilFreed bytesNeeded (sortedCandidates cfg tier)

/-- Modelled from the spec: a `put` into a tier with a byte budget.  If the
write fits, it proceeds; otherwise victims are evicted synchronously first,
and if even then the entry cannot fit (an entry larger than the whole
budget, `EntryTooLarge`), the write itself fails with the eviction already
performed.  Returns `(evicted victims, resulting tier)`. -/
def putWithEviction (cfg : PolicyConfig) (budget : Nat) (tier : List Entry)
    (e : Entry) : List Entry × List Entry :=
  if occupancy tier + e.size ≤ budget then ([], e :: tier)
  else
    let victims := select_victims cfg tier (occupancy tier + e.size - budget)
    let rest := (sortedCandidates cfg tier).drop victims.length
    if occupancy rest + e.size ≤ budget then (victims, e :: rest)
    else (victims, rest)

theorem takeUntilFreed_isPrefix (need : Nat) (l : List Entry) :
    takeUntilFreed need l <+: l := by
  induction l generalizing need with
  | nil => simp [takeUntilFreed]
  | cons e es ih =>
    rw [takeUntilFreed]
    by_cases h : need = 0
    · simp [h]
    · rw [if_neg h]
      obtain ⟨t, ht⟩ := ih (need - e.size)
      exact ⟨t, by rw [List.cons_append, ht]⟩

theorem takeUntilFreed_all_or_enough (need : Nat) (l : List Entry) :
    takeUntilFreed need l = l ∨ need ≤ occupancy (takeUntilFreed need l) := by
  induction l generalizing need with
  | nil => exact Or.inl rfl
  | cons e es ih =>
    rw [takeUntilFreed]
    by_cases h : need = 0
    · right
      simp [h]
    · rw [if_neg h]
      rcases ih (need - e.size) with h2 | h2
      · left
        rw [h2]
      · right
        simp only [occupancy, List.map_cons, List.sum_cons]
        simp only [occupancy] at h2
        omega

theorem takeUntilFreed_minimal (need : Nat) (l : List Entry) :
    ∀ i < (takeUntilFreed need l).length,
      occupancy ((takeUntilFreed need l).take i) < need := by
  induction l generalizing need with
  | nil => simp [takeUntilFreed]
  | cons e es ih =>
    rw [takeUntilFreed]
    by_cases h : need = 0
    · simp [h]
    · rw [if_neg h]
      intro i hi
      cases i with
      | zero => simpa [occupancy] using Nat.pos_of_ne_zero h
      | succ j =>
        have hj := ih (need - e.size) j (by simpa using hi)
        simp only [List.take_succ_cons, occupancy, List.map_cons,
          List.sum_cons]
        simp only [occupancy] at hj
        omega

theorem occupancy_append (a b : List Entry) :
    occupancy (a ++ b) = occupancy a + occupancy b := by
  simp [occupancy]

theorem occupancy_perm {a b : List Entry} (h : a.Perm b) :
    occupancy a = occupancy b :=
  (h.map Entry.size).sum_eq

/-- C4: after any `put` that would exceed the tier's byte budget,
post-eviction occupancy is at most the budget; and the evicted entries are
exactly `select_victims` — a prefix of the eviction-ordered candidates
(expired entries before all score-based candidates, then ascending hybrid
score `w1 * recency_rank + w2 * frequency_rank`), extended entry by entry
exactly until the needed bytes are freed: every proper prefix of the victim
list frees strictly fewer bytes than needed, and the victims either free at
least the needed bytes or exhaust the tier. -/
theorem put_eviction_spec (cfg : PolicyConfig) (budget : Nat)
    (tier : List Entry) (e : Entry)
    (hover : budget < occupancy tier + e.size) :
    occupancy (putWithEviction cfg budget tier e).2 ≤ budget ∧
      (putWithEviction cfg budget tier e).1 =
        select_victims cfg tier (occupancy tier + e.size - budget) ∧
      (sortedCandidates cfg tier).Perm tier ∧
      List.Sorted (evictBefore cfg tier) (sortedCandidates cfg tier) ∧
      (putWithEviction cfg budget tier e).1 <+: sortedCandidates cfg tier ∧
      (∀ i < (putWithEviction cfg budget tier e).1.length,
        occupancy ((putWithEviction cfg budget tier e).1.take i) <
          occupancy tier + e.size - budget) ∧
      ((putWithEviction cfg budget tier e).1 = sortedCandidates cfg tier ∨
        occupancy tier + e.size - budget ≤
          occupancy (putWithEviction cfg budget tier e).1) := by
  have hnot : ¬ (occupancy tier + e.size ≤ budget) := by omega
  have hperm : (sortedCandidates cfg tier).Perm tier :=
    List.perm_insertionSort _ tier
  have hocc : occupancy (sortedCandidates cfg tier) = occupancy tier :=
    occupancy_perm hperm
  set need := occupancy tier + e.size - budget with hneed
  set victims := select_victims cfg tier need with hvictims
  have hv2 : victims = takeUntilFreed need (sortedCandidates cfg tier) := rfl
  have hpre : victims <+: sortedCandidates cfg tier :=
    takeUntilFreed_isPrefix need (sortedCandidates cfg tier)
  have hsplit : victims ++ (sortedCandidates cfg tier).drop victims.length =
      sortedCandidates cfg tier := by
    obtain ⟨t, ht⟩ := hpre
    have hdrop : (sortedCandidates cfg tier).drop victims.length = t := by
      rw [← ht, List.drop_left]
    rw [hdrop, ht]
  have hoccsplit : occupancy victims +
      occupancy ((sortedCandidates cfg tier).drop victims.length) =
      occupancy tier := by
    rw [← hocc]
    conv_rhs => rw [← hsplit]
    rw [occupancy_append]
  have hresult : putWithEviction cfg budget tier e =
      (victims,
        if occupancy ((sortedCandidates cfg tier).drop victims.length) +
            e.size ≤ budget then
          e :: (sortedCandidates cfg tier).drop victims.length
        else (sortedCandidates cfg tier).drop victims.length) := by
    rw [putWithEviction, if_neg hnot]
    by_cases hfit :
        occupancy ((sortedCandidates cfg tier).drop victims.length) +
          e.size ≤ budget
    · rw [if_pos hfit, if_pos hfit]
    · rw [if_neg hfit, if_neg hfit]
  have henough := takeUntilFreed_all_or_enough need (sortedCandidates cfg tier)
  refine ⟨?_, ?_, hperm, List.sorted_insertionSort _ tier, ?_, ?_, ?_⟩
  · rw [hresult]
    by_cases hfit :
        occupancy ((sortedCandidates cfg tier).drop victims.length) +
          e.size ≤ budget
    · rw [if_pos hfit]
      simp only [occupancy, List.map_cons, List.sum_cons]
      simp only [occupancy] at hfit
      omega
    · rw [if_neg hfit]
      dsimp only
      rcases henough with hall | hge
      · have hv3 : victims = sortedCandidates cfg tier := hv2.trans hall
        rw [hv3, List.drop_length]
        simp [occupancy]
      · rw [← hv2] at hge
        omega
  · rw [hresult]
  · rw [hresult]
    exact hpre
  · rw [hresult]
    exact takeUntilFreed_minimal need (sortedCandidates cfg tier)
  · rw [hresult]
    rw [← hv2] at henough
    exact henough

/-- Witness for C4: tier with an expired 6-byte entry and a live 5-byte
entry, budget 10, incoming 6-byte entry (occupancy would reach 17). -/
theorem put_eviction_spec_witness :
    occupancy (putWithEviction ⟨1, 1, 10⟩ 10
        [⟨1, 6, 0, 0, 3⟩, ⟨2, 5, 1, 4, 100⟩] ⟨3, 6, 2, 1, 50⟩).2 ≤ 10 ∧
      (putWithEviction ⟨1, 1, 10⟩ 10
          [⟨1, 6, 0, 0, 3⟩, ⟨2, 5, 1, 4, 100⟩] ⟨3, 6, 2, 1, 50⟩).1 =
        select_victims ⟨1, 1, 10⟩ [⟨1, 6, 0, 0, 3⟩, ⟨2, 5, 1, 4, 100⟩]
          (occupancy [⟨1, 6, 0, 0, 3⟩, ⟨2, 5, 1, 4, 100⟩] + 6 - 10) ∧
      (sortedCandidates ⟨1, 1, 10⟩
          [⟨1, 6, 0, 0, 3⟩, ⟨2, 5, 1, 4, 100⟩]).Perm
        [⟨1, 6, 0, 0, 3⟩, ⟨2, 5, 1, 4, 100⟩] ∧
      List.Sorted (evictBefore ⟨1, 1, 10⟩ [⟨1, 6, 0, 0, 3⟩, ⟨2, 5, 1, 4, 100⟩])
        (sortedCandidates ⟨1, 1, 10⟩ [⟨1, 6, 0, 0, 3⟩, ⟨2, 5, 1, 4, 100⟩]) ∧
      (putWithEviction ⟨1, 1, 10⟩ 10
          [⟨1, 6, 0, 0, 3⟩, ⟨2, 5, 1, 4, 100⟩] ⟨3, 6, 2, 1, 50⟩).1 <+:
        sortedCandidates ⟨1, 1, 10⟩ [⟨1, 6, 0, 0, 3⟩, ⟨2, 5, 1, 4, 100⟩] ∧
      (∀ i < (putWithEviction ⟨1, 1, 10⟩ 10
          [⟨1, 6, 0, 0, 3⟩, ⟨2, 5, 1, 4, 100⟩] ⟨3, 6, 2, 1, 50⟩).1.length,
        occupancy ((putWithEviction ⟨1, 1, 10⟩ 10
            [⟨1, 6, 0, 0, 3⟩, ⟨2, 5, 1, 4, 100⟩] ⟨3, 6, 2, 1, 50⟩).1.take i) <
          occupancy [⟨1, 6, 0, 0, 3⟩, ⟨2, 5, 1, 4, 100⟩] + 6 - 10) ∧
      ((putWithEviction ⟨1, 1, 10⟩ 10
          [⟨1, 6, 0, 0, 3⟩, ⟨2, 5, 1, 4, 100⟩] ⟨3, 6, 2, 1, 50⟩).1 =
          sortedCandidates ⟨1, 1, 10⟩ [⟨1, 6, 0, 0, 3⟩, ⟨2, 5, 1, 4, 100⟩] ∨
        occupancy [⟨1, 6, 0, 0, 3⟩, ⟨2, 5, 1, 4, 100⟩] + 6 - 10 ≤
          occupancy (putWithEviction ⟨1, 1, 10⟩ 10
            [⟨1, 6, 0, 0, 3⟩, ⟨2, 5, 1, 4, 100⟩] ⟨3, 6, 2, 1, 50⟩).1) :=
  put_eviction_spec ⟨1, 1, 10⟩ 10 [⟨1, 6, 0, 0, 3⟩, ⟨2, 5, 1, 4, 100⟩]
    ⟨3, 6, 2, 1, 50⟩ (by decide)

end TierEviction

namespace Facades

open CacheManager (CacheError)

/-- Association-list lookup for an arbitrary decidable key type. -/
def alookup {K V : Type} [DecidableEq K] : List (K × V) → K → Option V
  | [], _ => none
  | (k', v) :: rest, k => if k' = k then some v else alookup rest k

/-- Modelled from the spec: the state behind the modality façades (chat,
audio, video, RAG, advanced prefill), absent from the repository's source
tree — thin wrappers over one cache manager.  `dim` is the embedding
dimensionality fixed for the chunk index. -/
structure System where
  segments : List (Str × Str)
  docs : List (Str × List Nat)
  chunks : List (Nat × List ℚ × Str)
  dim : Nat
  audio : List ((Str × Str) × List ℚ)
  video : List ((Str × Str) × Str)
  textKV : List (Str × Str × List Nat)
  hits : Nat
  misses : Nat

/-- Stats counters reported by `get_stats`. -/
structure Stats where
  hits : Nat
  misses : Nat
  totalSegments : Nat
  totalChunks : Nat
  totalAudio : Nat
  totalVideo : Nat

/-- `cache_segment`: store a chat segment under its key; empty key is
malformed input. -/
def cache_segment (s : System) (key content : Str) :
    Except CacheError (System × Str) :=
  if key = [] then .error .invalidInput
  else .ok ({ s with segments := (key, content) :: s.segments }, key)

/-- `get_segment_with_rag_fallback`: exact segment lookup, falling back to
the chunk index when an embedding is supplied; a miss is `none`, never an
error.  Malformed input: empty key, or an embedding of the wrong
dimensionality. -/
def get_segment_with_rag_fallback (sim : List ℚ → List ℚ → ℚ) (θ : ℚ)
    (s : System) (key : Str) (emb : Option (List ℚ)) :
    Except CacheError (Option Str) :=
  if key = [] ∨ Option.any (fun q => decide (q.length ≠ s.dim)) emb = true then
    .error .invalidInput
  else .ok
    (match alookup s.segments key with
      | some content => some content
      | none =>
        emb.bind fun q =>
          ((s.chunks.filter fun c => decide (θ ≤ sim q c.2.1)).head?).map
            fun c => c.2.2)

/-- `add_document`: register a document's chunks (supplied with their
already-computed embeddings) in the chunk index; malformed input: empty
document id or a chunk embedding of the wrong dimensionality. -/
def add_document (s : System) (docId : Str)
    (chunksIn : List (List ℚ × Str)) :
    Except CacheError (System × List Nat) :=
  if docId = [] ∨ ∃ c ∈ chunksIn, c.1.length ≠ s.dim then .error .invalidInput
  else
    let ids := (List.range chunksIn.length).map (· + s.chunks.length)
    .ok
      ({ s with
          docs := (docId, ids) :: s.docs
          chunks := ((ids.zip chunksIn).map fun p => (p.1, p.2.1, p.2.2)) ++
            s.chunks },
        ids)

/-- `search_similar_chunks`: similarity search over the chunk index; an
empty result list is the miss indicator.  Malformed input: query embedding
of the wrong dimensionality. -/
def search_similar_chunks (sim : List ℚ → List ℚ → ℚ) (θ : ℚ) (s : System)
    (q : List ℚ) (k : Nat) :
    Except CacheError (List SimilarityIndex.SearchResult) :=
  if q.length ≠ s.dim then .error .invalidInput
  else .ok (SimilarityIndex.search sim
    (s.chunks.map fun c => ⟨c.1, c.2.1, c.1⟩) q k θ)

/-- `cache_audio_features`: store a feature block under
`(audio_id, feature_type)`; empty audio id is malformed input. -/
def cache_audio_features (s : System) (audioId featureType : Str)
    (features : List ℚ) : Except CacheError (System × (Str × Str)) :=
  if audioId = [] then .error .invalidInput
  else .ok ({ s with audio := ((audioId, featureType), features) :: s.audio },
    (audioId, featureType))

/-- `get_audio_features`: lookup by `(audio_id, feature_type)`; a miss is
`none`, never an error. -/
def get_audio_features (s : System) (audioId featureType : Str) :
    Except CacheError (Option (List ℚ)) :=
  if audioId = [] then .error .invalidInput
  else .ok (alookup s.audio (audioId, featureType))

/-- `cache_video_segment`: store a segment under `(video_id, segment_id)`;
empty ids are malformed input. -/
def cache_video_segment (s : System) (videoId segId : Str) (payload : Str) :
    Except CacheError (System × (Str × Str)) :=
  if videoId = [] ∨ segId = [] then .error .invalidInput
  else .ok ({ s with video := ((videoId, segId), payload) :: s.video },
    (videoId, segId))

/-- `get_video_segment`: lookup by `(video_id, segment_id)`; a miss is
`none`, never an error. -/
def get_video_segment (s : System) (videoId segId : Str) :
    Except CacheError (Option Str) :=
  if videoId = [] ∨ segId = [] then .error .invalidInput
  else .ok (alookup s.video (videoId, segId))

/-- `cache_text_with_prefill`: store a prompt's response and its token
prefill; malformed input: empty prompt, or an empty token sequence where
one is required. -/
def cache_text_with_prefill (s : System) (prompt response : Str)
    (tokens : List Nat) : Except CacheError System :=
  if prompt = [] ∨ tokens = [] then .error .invalidInput
  else .ok { s with textKV := (prompt, response, tokens) :: s.textKV }

/-- `get_text_with_prefill`: lookup of the response and prefill by prompt;
a miss is `none`, never an error. -/
def get_text_with_prefill (s : System) (prompt : Str) :
    Except CacheError (Option (Str × List Nat)) :=
  if prompt = [] then .error .invalidInput
  else .ok (alookup s.textKV prompt)

/-- `batch_put`: sequential application of the segment put (no cross-item
atomicity); malformed if any item's key is empty. -/
def batch_put (s : System) (items : List (Str × Str)) :
    Except CacheError System :=
  if ∃ it ∈ items, it.1 = [] then .error .invalidInput
  else .ok (items.foldl
    (fun acc it => { acc with segments := (it.1, it.2) :: acc.segments }) s)

/-- `batch_get`: sequential application of the segment get; per-key misses
are `none` entries in the result list. -/
def batch_get (s : System) (keys : List Str) :
    Except CacheError (List (Option Str)) :=
  if ∃ k ∈ keys, k = [] then .error .invalidInput
  else .ok (keys.map (alookup s.segments))

/-- `get_stats`: report counters; never an error. -/
def get_stats (s : System) : Except CacheError Stats :=
  .ok ⟨s.hits, s.misses, s.segments.length, s.chunks.length, s.audio.length,
    s.video.length⟩

/-- C7: every caller-facing operation returns either a populated result or
an explicit miss indicator (`none` / empty list) for absent keys, and
produces an error only for malformed input (empty key material, wrong
embedding dimensionality, empty token sequence where required) — never for
"not found". -/
theorem facades_no_raise_on_miss (sim : List ℚ → List ℚ → ℚ) (θ : ℚ)
    (s : System) :
    (∀ key content, key ≠ [] →
      ∃ r, cache_segment s key content = .ok r) ∧
    (∀ key emb, key ≠ [] → (∀ q, emb = some q → q.length = s.dim) →
      ∃ r, get_segment_with_rag_fallback sim θ s key emb = .ok r) ∧
    (∀ docId chunksIn, docId ≠ [] →
      (∀ c ∈ chunksIn, (c : List ℚ × Str).1.length = s.dim) →
      ∃ r, add_document s docId chunksIn = .ok r) ∧
    (∀ q k, q.length = s.dim →
      search_similar_chunks sim θ s q k = .ok (SimilarityIndex.search sim
        (s.chunks.map fun c => ⟨c.1, c.2.1, c.1⟩) q k θ)) ∧
    (∀ audioId featureType features, audioId ≠ [] →
      ∃ r, cache_audio_features s audioId featureType features = .ok r) ∧
    (∀ audioId featureType, audioId ≠ [] →
      get_audio_features s audioId featureType =
        .ok (alookup s.audio (audioId, featureType))) ∧
    (∀ videoId segId payload, videoId ≠ [] → segId ≠ [] →
      ∃ r, cache_video_segment s videoId segId payload = .ok r) ∧
    (∀ videoId segId, videoId ≠ [] → segId ≠ [] →
      get_video_segment s videoId segId =
        .ok (alookup s.video (videoId, segId))) ∧
    (∀ prompt response tokens, prompt ≠ [] → tokens ≠ [] →
      ∃ r, cache_text_with_prefill s prompt response tokens = .ok r) ∧
    (∀ prompt, prompt ≠ [] →
      get_text_with_prefill s prompt = .ok (alookup s.textKV prompt)) ∧
    (∀ items, (∀ it ∈ items, (it : Str × Str).1 ≠ []) →
      ∃ r, batch_put s items = .ok r) ∧
    (∀ keys, (∀ k ∈ keys, k ≠ []) →
      batch_get s keys = .ok (keys.map (alookup s.segments))) ∧
    get_stats s = .ok ⟨s.hits, s.misses, s.segments.length, s.chunks.length,
      s.audio.length, s.video.length⟩ := by
  refine ⟨?_, ?_, ?_, ?_, ?_, ?_, ?_, ?_, ?_, ?_, ?_, ?_, rfl⟩
  · intro key content hk
    exact ⟨_, by rw [cache_segment, if_neg hk]⟩
  · intro key emb hk hemb
    have hcond : ¬ (key = [] ∨
        Option.any (fun q => decide (q.length ≠ s.dim)) emb = true) := by
      rcases emb with _ | q
      · simp [hk]
      · simp [hk, Option.any, hemb q rfl]
    exact ⟨_, by rw [get_segment_with_rag_fallback, if_neg hcond]⟩
  · intro docId chunksIn hd hdim
    have hcond : ¬ (docId = [] ∨ ∃ c ∈ chunksIn, c.1.length ≠ s.dim) := by
      push_neg
      exact ⟨hd, hdim⟩
    exact ⟨_, by rw [add_document, if_neg hcond]⟩
  · intro q k hq
    rw [search_similar_chunks, if_neg (by omega)]
  · intro audioId featureType features ha
    exact ⟨_, by rw [cache_audio_features, if_neg ha]⟩
  · intro audioId featureType ha
    rw [get_audio_features, if_neg ha]
  · intro videoId segId payload hv hs2
    exact ⟨_, by rw [cache_video_segment, if_neg (by simp [hv, hs2])]⟩
  · intro videoId segId hv hs2
    rw [get_video_segment, if_neg (by simp [hv, hs2])]
  · intro prompt response tokens hp ht
    exact ⟨_, by rw [cache_text_with_prefill, if_neg (by simp [hp, ht])]⟩
  · intro prompt hp
    rw [get_text_with_prefill, if_neg hp]
  · intro items hitems
    have hcond : ¬ ∃ it ∈ items, it.1 = [] := by
      push_neg
      exact hitems
    exact ⟨_, by rw [batch_put, if_neg hcond]⟩
  · intro keys hkeys
    rw [batch_get, if_neg (by push_neg; exact hkeys)]

/-- An empty façade system with chunk-embedding dimensionality 2, used by
the C7 witness. -/
def sys0 : System := ⟨[], [], [], 2, [], [], [], 0, 0⟩

/-- Witness for C7: every façade operation applied to well-formed concrete
inputs over `sys0` answers without an error. -/
theorem facades_no_raise_on_miss_witness :
    (∃ r, cache_segment sys0 ("k".toList) ("c".toList) = .ok r) ∧
      (∃ r, get_segment_with_rag_fallback SimilarityIndex.dotSim 0 sys0
        ("k".toList) (some [1, 2]) = .ok r) ∧
      (∃ r, add_document sys0 ("doc1".toList)
        [([1, 0], "hello".toList)] = .ok r) ∧
      search_similar_chunks SimilarityIndex.dotSim 0 sys0 [1, 0] 2 =
        .ok (SimilarityIndex.search SimilarityIndex.dotSim
          (sys0.chunks.map fun c => ⟨c.1, c.2.1, c.1⟩) [1, 0] 2 0) ∧
      (∃ r, cache_audio_features sys0 ("a1".toList) ("mfcc".toList) [1] =
        .ok r) ∧
      get_audio_features sys0 ("a1".toList) ("mfcc".toList) =
        .ok (alookup sys0.audio ("a1".toList, "mfcc".toList)) ∧
      (∃ r, cache_video_segment sys0 ("v1".toList) ("s1".toList)
        ("p".toList) = .ok r) ∧
      get_video_segment sys0 ("v1".toList) ("s1".toList) =
        .ok (alookup sys0.video ("v1".toList, "s1".toList)) ∧
      (∃ r, cache_text_with_prefill sys0 ("p".toList) ("r".toList) [1, 2] =
        .ok r) ∧
      get_text_with_prefill sys0 ("p".toList) =
        .ok (alookup sys0.textKV ("p".toList)) ∧
      (∃ r, batch_put sys0 [("k1".toList, "v1".toList)] = .ok r) ∧
      batch_get sys0 [("k1".toList)] =
        .ok ([("k1".toList)].map (alookup sys0.segments)) ∧
      get_stats sys0 = .ok ⟨0, 0, 0, 0, 0, 0⟩ := by
  have T := facades_no_raise_on_miss SimilarityIndex.dotSim 0 sys0
  exact ⟨T.1 _ _ (by decide),
    T.2.1 _ (some [1, 2]) (by decide) (fun q hq => by cases hq; rfl),
    T.2.2.1 _ [([1, 0], "hello".toList)] (by decide)
      (by intro c hc; rw [List.mem_singleton] at hc; subst hc; rfl),
    T.2.2.2.1 [1, 0] 2 rfl,
    T.2.2.2.2.1 _ _ [1] (by decide),
    T.2.2.2.2.2.1 _ _ (by decide),
    T.2.2.2.2.2.2.1 _ _ _ (by decide) (by decide),
    T.2.2.2.2.2.2.2.1 _ _ (by decide) (by decide),
    T.2.2.2.2.2.2.2.2.1 _ _ [1, 2] (by decide) (by decide),
    T.2.2.2.2.2.2.2.2.2.1 _ (by decide),
    T.2.2.2.2.2.2.2.2.2.2.1 _
      (by intro it hit; rw [List.mem_singleton] at hit; subst hit; decide),
    T.2.2.2.2.2.2.2.2.2.2.2.1 _
      (by intro k hk; rw [List.mem_singleton] at hk; subst hk; decide),
    T.2.2.2.2.2.2.2.2.2.2.2.2⟩

end Facades
